import Mathlib

/-!
Verification of the transcript segmentation and metrics core of the
ProjectPraxis repository (backend/segmenter.py and
backend/metrics_analyzer.py), via a shallow embedding in Lean 4.

Python floats are modelled as exact rationals (ℚ); Python strings as
`List Char`.  Dictionaries that the source sometimes returns empty are
modelled as `Option` of a structure; a Python function that always
returns all keys is modelled as a plain structure.
-/

namespace Praxis

/-! ## Data model

A transcript entry / word, as consumed by `segment` and by
`LectureMetricsAnalyzer`: fields `start`, `end`, `text` and an optional
`conf` (the source reads `conf` with `.get("conf", 0.0)` or guards with
`"conf" in item`). -/

structure Word where
  start : ℚ
  «end» : ℚ
  text : List Char
  conf : Option ℚ
deriving DecidableEq

/-- A produced segment record, mirroring the dict returned by
`make_segment` in backend/segmenter.py. -/
structure Segment where
  start : ℚ
  «end» : ℚ
  text : List Char
  speech_rate : ℚ
  lexical_diversity : ℚ
  silence_ratio : ℚ
  asr_confidence : ℚ
deriving DecidableEq

/-! ## Character-level text helpers

`\w` of Python's `re` module, restricted to ASCII (all inputs in the
claims are ASCII): letters, digits and underscore. -/

def isWordChar (c : Char) : Bool := c.isAlphanum || c == '_'

/-- Python `str.isspace` characters relevant to `str.split`/`str.strip`
and `\s` (ASCII range). -/
def isSpaceChar (c : Char) : Bool :=
  c == ' ' || c == '\t' || c == '\n' || c == '\r' || c == '\x0b' || c == '\x0c'

/-- Python `str.lower` (ASCII). -/
def lowerChars (s : List Char) : List Char := s.map Char.toLower

/-- Maximal runs of characters satisfying `p`; all other characters act
as delimiters and empty runs are not produced.  `acc` holds the current
run in reverse. -/
def runsByAux (p : Char → Bool) (acc : List Char) : List Char → List (List Char)
  | [] => if acc.isEmpty then [] else [acc.reverse]
  | c :: cs =>
    if p c then runsByAux p (c :: acc) cs
    else if acc.isEmpty then runsByAux p [] cs
    else acc.reverse :: runsByAux p [] cs

def runsBy (p : Char → Bool) (s : List Char) : List (List Char) := runsByAux p [] s

/-- Models `re.findall(r"\b\w+\b", s.lower())`: the maximal runs of word
characters of the lowercased text (for maximal runs the `\b` anchors are
automatically satisfied). -/
def wordTokens (s : List Char) : List (List Char) := runsBy isWordChar (lowerChars s)

/-- Python `str.split()` (no argument): maximal runs of non-whitespace. -/
def splitWs (s : List Char) : List (List Char) := runsBy (fun c => !(isSpaceChar c)) s

/-- Python `str.strip()`: drop leading and trailing whitespace. -/
def stripChars (s : List Char) : List Char :=
  ((s.dropWhile isSpaceChar).reverse.dropWhile isSpaceChar).reverse

/-- Python `" ".join(ts)`. -/
def joinSpace (ts : List (List Char)) : List Char := List.intercalate [' '] ts

/-! ## backend/segmenter.py -/

/-- Embeds `compute_lexical_diversity` (segmenter.py lines 14-20): ratio of
unique tokens to total tokens of the lowercased text; `len(set(words))`
is the number of distinct tokens, i.e. `words.dedup.length`. -/
def compute_lexical_diversity (text : List Char) : ℚ :=
  let words := wordTokens text
  if words.isEmpty then 0 else (words.dedup.length : ℚ) / words.length

/-- Sum of the positive gaps between consecutive words of a segment
(segmenter.py lines 65-69). -/
def totalSilence : List Word → ℚ
  | [] => 0
  | [_] => 0
  | a :: b :: rest =>
    (if a.«end» < b.start then b.start - a.«end» else 0) + totalSilence (b :: rest)

/-- Placeholder used only to totalize head/last lookups on lists the
source guarantees non-empty. -/
def defaultWord : Word := ⟨0, 0, [], none⟩

/-- Embeds `make_segment` (segmenter.py lines 56-85).  The source indexes
`words[0]` and `words[-1]` and so requires a non-empty list; `segment`
only ever calls it on non-empty accumulators, and the `headD`/`getLastD`
defaults below are dead code on that call path. -/
def make_segment (words : List Word) : Segment :=
  let text := joinSpace (words.map Word.text)
  let w0 := words.headD defaultWord
  let wN := words.getLastD defaultWord
  let segment_duration := wN.«end» - w0.start
  let word_count : ℚ := words.length
  let total_silence := totalSilence words
  { start := w0.start
    «end» := wN.«end»
    text := stripChars text
    speech_rate := if 0 < segment_duration then word_count / segment_duration else 0
    lexical_diversity := compute_lexical_diversity text
    silence_ratio := if 0 < segment_duration then total_silence / segment_duration else 0
    asr_confidence := (words.map (fun w => w.conf.getD 0)).sum / word_count }

/-- Models `sorted(transcript, key=lambda x: x["start"])`.  Python's `sorted`
is a stable sort; `List.insertionSort` with the non-strict key order is
stable as well (an element is inserted before the first element that is
not strictly below it), so the two agree on every input. -/
def sortByStart (t : List Word) : List Word :=
  List.insertionSort (fun a b => a.start ≤ b.start) t

/-- The accumulation loop of `segment` (segmenter.py lines 33-52), with
the in-progress accumulator `current` represented as the fixed first
word `c0` plus the later words in reverse order `racc`
(`current = c0 :: racc.reverse`, `current[-1] = racc.headD c0`).
The branch condition is the source's
`duration >= max_len or gap >= pause_thresh`. -/
def segLoop (maxLen pauseThresh : ℚ) : Word → List Word → List Word → List (List Word)
  | c0, racc, [] => [c0 :: racc.reverse]
  | c0, racc, w :: ws =>
    let prev := racc.headD c0
    let gap := w.start - prev.«end»
    let duration := w.«end» - c0.start
    if maxLen ≤ duration ∨ pauseThresh ≤ gap then
      (c0 :: racc.reverse) :: segLoop maxLen pauseThresh w [] ws
    else
      segLoop maxLen pauseThresh c0 (w :: racc) ws

/-- Embeds `segment` (segmenter.py lines 22-54) up to, but not including, the
`make_segment` aggregation: the list of word groups, one per emitted
segment. -/
def segmentGroups (t : List Word) (maxLen pauseThresh : ℚ) : List (List Word) :=
  match sortByStart t with
  | [] => []
  | w :: ws => segLoop maxLen pauseThresh w [] ws

/-- Embeds `segment` (segmenter.py lines 22-54); the source interleaves
`make_segment` with the accumulation, which is the same as aggregating
each collected group.  Defaults in the source: `max_len=60.0`,
`pause_thresh=2.0`. -/
def segment (t : List Word) (maxLen pauseThresh : ℚ) : List Segment :=
  (segmentGroups t maxLen pauseThresh).map make_segment

/-! ## backend/metrics_analyzer.py

`LectureMetricsAnalyzer` is constructed from `transcript_data` and an
optional `segments_data` (defaulting to `[]`); every derived attribute
set in `__init__` is modelled as a function of the transcript. -/

/-- Embeds `_get_full_text`: `" ".join(item.get("text", "").strip() for ...)`. -/
def full_text (t : List Word) : List Char :=
  joinSpace (t.map (fun i => stripChars i.text))

/-- Per-entry word cleaning of `_get_words`: lowercase, delete
characters matching `[^\w\s]`, split on whitespace.  The trailing
`[w for w in words if w]` of the source is a no-op since `split()`
never yields empty strings. -/
def cleanSplit (s : List Char) : List (List Char) :=
  splitWs ((lowerChars s).filter (fun c => isWordChar c || isSpaceChar c))

/-- Embeds `_get_words`: words of all entries with non-empty stripped text. -/
def getWords (t : List Word) : List (List Char) :=
  (t.map (fun i =>
    let s := stripChars i.text
    if s.isEmpty then [] else cleanSplit s)).flatten

/-- Embeds `_get_total_duration`: `max(item.get("end", 0) ...)` over a
non-empty transcript, `0.0` when empty. -/
def total_duration (t : List Word) : ℚ :=
  match t.map Word.«end» with
  | [] => 0
  | e :: es => es.foldl max e

/-- Models `statistics.mean` guarded by the callers (they only call it on
non-empty lists, or guard with an `if xs else 0` default that we bake
in here as the empty case). -/
def meanQ (xs : List ℚ) : ℚ := xs.sum / xs.length

/-- The sample variance underlying `statistics.stdev`, with the
source's `if len > 1 else 0` guard.  The source reports
`stdev = sqrt` of this value; the square root is irrational in general,
so the development stores the variance and phrases every use of a
stdev comparison as the equivalent comparison of variances (see
`consistencyBelow`). -/
def sampleVar (xs : List ℚ) : ℚ :=
  if xs.length ≤ 1 then 0
  else (xs.map (fun x => (x - meanQ xs) ^ 2)).sum / (xs.length - 1)

/-- The result dict of `calculate_speech_metrics` (non-empty case). -/
structure SpeechMetrics where
  words_per_minute : ℚ
  speech_rate_wps : ℚ
  total_speech_time : ℚ
  silence_time : ℚ
  silence_ratio : ℚ
  average_pause_duration : ℚ
  pause_count : ℕ
  long_pause_count : ℕ
deriving DecidableEq

/-- Gaps `> 0.1` between consecutive transcript entries
(metrics_analyzer.py lines 59-65). -/
def pausesOf (t : List Word) : List ℚ :=
  (t.zip t.tail).filterMap (fun p =>
    let d := p.2.start - p.1.«end»
    if 1/10 < d then some d else none)

/-- Embeds `calculate_speech_metrics` (lines 46-76); returns `{}` (here
`none`) for an empty transcript or zero total duration. -/
def calculate_speech_metrics (t : List Word) : Option SpeechMetrics :=
  if t.isEmpty ∨ total_duration t = 0 then none
  else
    let total_words : ℚ := (getWords t).length
    let tst := ((t.filter (fun i => !(stripChars i.text).isEmpty)).map
      (fun i => i.«end» - i.start)).sum
    let D := total_duration t
    let pauses := pausesOf t
    some
      { words_per_minute := if 0 < D then total_words / D * 60 else 0
        speech_rate_wps := if 0 < tst then total_words / tst else 0
        total_speech_time := tst
        silence_time := D - tst
        silence_ratio := if 0 < D then (D - tst) / D else 0
        average_pause_duration := if pauses.isEmpty then 0 else meanQ pauses
        pause_count := pauses.length
        long_pause_count := (pauses.filter (fun p => decide (2 < p))).length }

/-- The result dict of `calculate_fluency_metrics` (always returned in
full by the source). -/
structure FluencyMetrics where
  filler_word_count : ℕ
  filler_word_rate : ℚ
  repetition_count : ℕ
  false_start_count : ℕ
  fluency_score : ℚ
deriving DecidableEq

/-- Models the `\b` of Python's `re` at the left edge of a pattern that starts
with a word character, the previous character (if any) must not be a
word character. -/
def boundaryBefore (prev : Option Char) : Bool :=
  match prev with
  | none => true
  | some c => !(isWordChar c)

/-- Models the `\b` at the right edge of a pattern ending in a word character:
the following character (if any) must not be a word character. -/
def boundaryAfter (rest : List Char) : Bool :=
  match rest with
  | [] => true
  | d :: _ => !(isWordChar d)

/-- Whether `pat` is a leading part of `s`. -/
def leadsWith : List Char → List Char → Bool
  | [], _ => true
  | _ :: _, [] => false
  | a :: as, b :: bs => a == b && leadsWith as bs

/-- Models `len(re.findall(rf"\b\x7bpat\x7d\b", s))` for a literal pattern `pat`
that starts and ends with a word character (true of every filler word
and engagement cue in the source): scan left to right; at a match,
resume after it (`re.findall` returns non-overlapping matches).  The
fuel is the remaining text length, which bounds the number of steps
since every step consumes at least one character. -/
def countWBFuel (pat : List Char) : ℕ → Option Char → List Char → ℕ
  | 0, _, _ => 0
  | _ + 1, _, [] => 0
  | fuel + 1, prev, c :: cs =>
    if boundaryBefore prev && leadsWith pat (c :: cs) &&
        boundaryAfter ((c :: cs).drop pat.length) then
      1 + countWBFuel pat fuel (some (pat.getLastD c)) ((c :: cs).drop pat.length)
    else countWBFuel pat fuel (some c) cs

def countWB (pat s : List Char) : ℕ :=
  if pat.isEmpty then 0 else countWBFuel pat s.length none s

/-- Models `len(re.findall(r"\b(\w+)\s+\1\b", s))`.  The regex engine's
backtracking never helps here: a shorter choice for the greedy `(\w+)`
(resp. `\s+`) leaves a word (resp. whitespace) character where `\s+`
(resp. `\1`) must start, so only the maximal word run followed by the
maximal whitespace run can match; this scan therefore agrees with the
regex.  Matching resumes after each match, as `re.findall` does. -/
def repScanFuel : ℕ → Option Char → List Char → ℕ
  | 0, _, _ => 0
  | _ + 1, _, [] => 0
  | fuel + 1, prev, c :: cs =>
    if boundaryBefore prev && isWordChar c then
      let w1 := (c :: cs).takeWhile isWordChar
      let r1 := (c :: cs).dropWhile isWordChar
      let sp := r1.takeWhile isSpaceChar
      let r2 := r1.dropWhile isSpaceChar
      if !sp.isEmpty && leadsWith w1 r2 && boundaryAfter (r2.drop w1.length) then
        1 + repScanFuel fuel (some (w1.getLastD c)) (r2.drop w1.length)
      else repScanFuel fuel (some c) cs
    else repScanFuel fuel (some c) cs

def repetitionCount (s : List Char) : ℕ := repScanFuel s.length none s

/-- The filler lexicon of `calculate_fluency_metrics` (a Python `set`;
only the sum of the per-filler counts is used, so the iteration order
is irrelevant and a list is a faithful model). -/
def fillerWords : List (List Char) :=
  [("um").data, ("uh").data, ("ah").data, ("er").data, ("hmm").data,
   ("like").data, ("you know").data, ("basically").data, ("actually").data,
   ("sort of").data, ("kind of").data, ("i mean").data, ("well").data,
   ("so").data]

/-- A "false start" (lines 95-97): entry whose stripped text is exactly
one word and whose duration is below half a second. -/
def isFalseStart (i : Word) : Bool :=
  (splitWs (stripChars i.text)).length == 1 && decide (i.«end» - i.start < 1/2)

/-- Embeds `calculate_fluency_metrics` (lines 78-107). -/
def calculate_fluency_metrics (t : List Word) : FluencyMetrics :=
  let textLower := lowerChars (full_text t)
  let filler_count := (fillerWords.map (fun f => countWB f textLower)).sum
  let repetitions := repetitionCount textLower
  let false_starts := (t.filter isFalseStart).length
  let total_words := (getWords t).length
  { filler_word_count := filler_count
    filler_word_rate := if 0 < total_words then (filler_count : ℚ) / total_words else 0
    repetition_count := repetitions
    false_start_count := false_starts
    fluency_score :=
      if 0 < total_words then
        max 0 (1 - ((filler_count + repetitions + false_starts : ℕ) : ℚ) / total_words)
      else 0 }

/-- The result dict of `calculate_linguistic_metrics` (non-empty case).
`vocabulary_richness` in the source is `unique_words / sqrt(total_words)`,
an irrational float; we store its square `unique_words ^ 2 / total_words`
(see `sampleVar`'s comment for this convention). -/
structure LinguisticMetrics where
  total_words : ℕ
  unique_words : ℕ
  lexical_diversity : ℚ
  sentence_count : ℕ
  avg_sentence_length : ℚ
  avg_word_length : ℚ
  most_frequent_words : List (List Char × ℕ)
  vocabulary_richness_sq : ℚ
deriving DecidableEq

/-- The stopword set of `calculate_linguistic_metrics` (line 130);
only membership is queried, so a list models the Python set. -/
def stopWords : List (List Char) :=
  [("the").data, ("a").data, ("an").data, ("and").data, ("or").data,
   ("but").data, ("in").data, ("on").data, ("at").data, ("to").data,
   ("for").data, ("of").data, ("with").data, ("by").data, ("is").data,
   ("are").data, ("was").data, ("were").data, ("be").data, ("been").data,
   ("have").data, ("has").data, ("had").data, ("do").data, ("does").data,
   ("did").data, ("will").data, ("would").data, ("could").data,
   ("should").data, ("may").data, ("might").data, ("can").data,
   ("this").data, ("that").data, ("these").data, ("those").data,
   ("i").data, ("you").data, ("he").data, ("she").data, ("it").data,
   ("we").data, ("they").data]

/-- The distinct elements of `l` in order of first occurrence — the key
order of a Python `dict`/`Counter` built by insertion. -/
def firstDistinct (l : List (List Char)) : List (List Char) :=
  l.foldl (fun acc w => if w ∈ acc then acc else acc ++ [w]) []

/-- Models `Counter(ws).most_common n`: pairs (word, multiplicity) sorted by
count descending; `most_common` is documented as equivalent to
`sorted(..., key=count, reverse=True)[:n]`, a stable descending sort on
insertion (= first occurrence) order, which is what a stable insertion
sort under the relation "count ≥" produces. -/
def mostCommon (ws : List (List Char)) (n : ℕ) : List (List Char × ℕ) :=
  (List.insertionSort (fun a b => b.2 ≤ a.2)
    ((firstDistinct ws).map (fun w => (w, ws.count w)))).take n

/-- Sentence fragments of `re.split(r"[.!?]+", s)` after stripping and
discarding empties (lines 119-120): `re.split` on runs of sentence
punctuation yields exactly the maximal punctuation-free runs, plus
possibly empty fragments that the `if s.strip()` filter drops anyway;
all-whitespace runs are dropped by the same filter. -/
def sentencesOf (s : List Char) : List (List Char) :=
  ((runsBy (fun c => !(c == '.' || c == '!' || c == '?')) s).map stripChars).filter
    (fun x => !x.isEmpty)

/-- Embeds `calculate_linguistic_metrics` (lines 109-143); `{}` (here `none`)
when there are no words. -/
def calculate_linguistic_metrics (t : List Word) : Option LinguisticMetrics :=
  let words := getWords t
  if words.isEmpty then none
  else
    let sentences := sentencesOf (full_text t)
    let sentence_lengths := sentences.map (fun s => ((splitWs s).length : ℚ))
    let content_words := words.filter (fun w => !(lowerChars w ∈ stopWords))
    some
      { total_words := words.length
        unique_words := words.dedup.length
        lexical_diversity := (words.dedup.length : ℚ) / words.length
        sentence_count := sentences.length
        avg_sentence_length := if sentence_lengths.isEmpty then 0 else meanQ sentence_lengths
        avg_word_length := meanQ (words.map (fun w => (w.length : ℚ)))
        most_frequent_words := mostCommon content_words 10
        vocabulary_richness_sq := (words.dedup.length : ℚ) ^ 2 / words.length }

/-- The extra keys `calculate_confidence_metrics` reports only when at
least one entry carries a confidence value.  `confidence_std` in the
source is the sample stdev; `confidence_var` stores its square. -/
structure ConfidenceExtra where
  min_confidence : ℚ
  max_confidence : ℚ
  confidence_var : ℚ
  low_confidence_ratio : ℚ
deriving DecidableEq

/-- The result dict of `calculate_confidence_metrics`: the no-confidence
default is `{"average_confidence": 0, "low_confidence_segments": 0}`
(`extra := none`). -/
structure ConfidenceMetrics where
  average_confidence : ℚ
  low_confidence_segments : ℕ
  extra : Option ConfidenceExtra
deriving DecidableEq

/-- Embeds `calculate_confidence_metrics` (lines 145-162). -/
def calculate_confidence_metrics (t : List Word) : ConfidenceMetrics :=
  let confs := (t.filter (fun i => i.conf.isSome)).map (fun i => i.conf.getD 0)
  match confs with
  | [] => { average_confidence := 0, low_confidence_segments := 0, extra := none }
  | c :: rest =>
    let low := (confs.filter (fun x => decide (x < 7/10))).length
    { average_confidence := meanQ confs
      low_confidence_segments := low
      extra := some
        { min_confidence := rest.foldl min c
          max_confidence := rest.foldl max c
          confidence_var := sampleVar confs
          low_confidence_ratio := (low : ℚ) / confs.length } }

/-- The result dict of `analyze_engagement_patterns` (always full). -/
structure EngagementAnalysis where
  question_indicators : ℕ
  example_count : ℕ
  interaction_cues : ℕ
  engagement_score : ℚ
deriving DecidableEq

/-- Embeds `analyze_engagement_patterns` (lines 201-230).  The `r"\?"` pattern
counts every question mark; each remaining pattern is a literal phrase
delimited by `\b` on either side. -/
def analyze_engagement_patterns (t : List Word) : EngagementAnalysis :=
  let textLower := lowerChars (full_text t)
  let question_count := (textLower.filter (fun c => c == '?')).length +
    ([("question").data, ("ask").data, ("answer").data, ("wonder").data,
      ("think about").data].map (fun p => countWB p textLower)).sum
  let example_count :=
    ([("for example").data, ("for instance").data, ("like").data,
      ("imagine").data, ("say").data, ("suppose").data].map
      (fun p => countWB p textLower)).sum
  let interaction_count :=
    ([("you").data, ("your").data, ("us").data, ("we").data,
      ("everyone").data, ("class").data].map (fun p => countWB p textLower)).sum
  { question_indicators := question_count
    example_count := example_count
    interaction_cues := interaction_count
    engagement_score :=
      if (getWords t).isEmpty then 0
      else ((question_count + example_count + interaction_count : ℕ) : ℚ) / (getWords t).length }

/-- A transition candidate dict of `detect_topic_transitions`
(lines 190-197).  `context_before` is `text[-100:]` and
`context_after` is `text[:100]`. -/
structure Transition where
  timestamp : ℚ
  time_gap : ℚ
  lexical_similarity : ℚ
  transition_strength : ℚ
  context_before : List Char
  context_after : List Char
deriving DecidableEq

/-- The body of the adjacent-pair loop of `detect_topic_transitions`
(lines 171-197): the candidate for a pair of consecutive segments, or
`none` when neither `time_gap > 3.0` nor `similarity < 0.3` holds. -/
def transCandidate (p : Segment × Segment) : Option Transition :=
  let time_gap := p.2.start - p.1.«end»
  let current_words := (splitWs (lowerChars p.1.text)).dedup
  let next_words := (splitWs (lowerChars p.2.text)).dedup
  let similarity : ℚ :=
    if !current_words.isEmpty ∧ !next_words.isEmpty then
      ((current_words.filter (fun w => w ∈ next_words)).length : ℚ) /
        min current_words.length next_words.length
    else 0
  if 3 < time_gap ∨ similarity < 3/10 then
    some
      { timestamp := p.1.«end»
        time_gap := time_gap
        lexical_similarity := similarity
        transition_strength := max (time_gap / 5) (1 - similarity)
        context_before := p.1.text.drop (p.1.text.length - 100)
        context_after := p.2.text.take 100 }
  else none

/-- Embeds `detect_topic_transitions` (lines 164-199): the kept candidates of
all adjacent pairs, then `sorted(..., key=strength, reverse=True)` — a
stable descending sort, modelled like `sortByStart`. -/
def detect_topic_transitions (segs : List Segment) : List Transition :=
  if segs.length < 2 then []
  else
    List.insertionSort (fun a b => b.transition_strength ≤ a.transition_strength)
      ((segs.zip segs.tail).filterMap transCandidate)

/-- One entry of `segment_rates` in `calculate_pacing_analysis`. -/
structure SegmentRate where
  timestamp : ℚ
  rate : ℚ
  duration : ℚ
deriving DecidableEq

/-- One entry of `pacing_changes` in `calculate_pacing_analysis`. -/
structure PaceChange where
  timestamp : ℚ
  change_magnitude : ℚ
  new_rate : ℚ
  previous_rate : ℚ
deriving DecidableEq

/-- The result dict of `calculate_pacing_analysis` (non-empty case).
`rate_std` in the source is the sample stdev of the rates; `rate_var`
stores its square.  `pacing_consistency` in the source is
`1 - stdev(rates)/mean(rates)` when the mean is positive and `0`
otherwise; it is irrational in general and is not stored — the only
consumer (`get_actionable_insights`) compares it with `0.7`, which
`consistencyBelow` renders as the equivalent variance comparison. -/
structure PacingAnalysis where
  average_rate : ℚ
  rate_var : ℚ
  min_rate : ℚ
  max_rate : ℚ
  significant_pace_changes : ℕ
  pace_changes : List PaceChange
deriving DecidableEq

/-- Embeds `segment_rates` (lines 237-247): per-segment word rate, skipping
zero-or-negative-duration segments. -/
def segmentRates (segs : List Segment) : List SegmentRate :=
  segs.filterMap (fun s =>
    let d := s.«end» - s.start
    if 0 < d then
      some { timestamp := s.start, rate := ((splitWs s.text).length : ℚ) / d, duration := d }
    else none)

/-- Embeds `pacing_changes` (lines 255-264): adjacent rate pairs whose
relative change exceeds 30% (relative change is 0 when the previous
rate is not positive), in chronological order. -/
def pacingChanges (srs : List SegmentRate) : List PaceChange :=
  (srs.zip srs.tail).filterMap (fun p =>
    let rc := if 0 < p.1.rate then |p.2.rate - p.1.rate| / p.1.rate else 0
    if 3/10 < rc then
      some { timestamp := p.2.timestamp, change_magnitude := rc,
             new_rate := p.2.rate, previous_rate := p.1.rate }
    else none)

/-- Embeds `calculate_pacing_analysis` (lines 232-274): `{}` (here `none`)
with fewer than 3 segments or when every segment is skipped.  Note the
reported `pace_changes` are `pacing_changes[:5]` — the chronologically
first five — while `significant_pace_changes` counts them all. -/
def calculate_pacing_analysis (segs : List Segment) : Option PacingAnalysis :=
  if segs.length < 3 then none
  else
    let srs := segmentRates segs
    if srs.isEmpty then none
    else
      let rates := srs.map SegmentRate.rate
      let changes := pacingChanges srs
      some
        { average_rate := meanQ rates
          rate_var := sampleVar rates
          min_rate := (rates.tail).foldl min (rates.headD 0)
          max_rate := (rates.tail).foldl max (rates.headD 0)
          significant_pace_changes := changes.length
          pace_changes := changes.take 5 }

/-- Embeds `generate_comprehensive_report` (lines 276-291).  The
`lecture_overview` sub-dict is inlined as the first three fields. -/
structure MetricsReport where
  total_duration_minutes : ℚ
  total_words : ℕ
  segment_count : ℕ
  speech_metrics : Option SpeechMetrics
  fluency_metrics : FluencyMetrics
  linguistic_metrics : Option LinguisticMetrics
  confidence_metrics : ConfidenceMetrics
  engagement_analysis : EngagementAnalysis
  pacing_analysis : Option PacingAnalysis
  topic_transitions : List Transition
deriving DecidableEq

def generate_comprehensive_report (t : List Word) (segs : List Segment) : MetricsReport :=
  { total_duration_minutes := total_duration t / 60
    total_words := (getWords t).length
    segment_count := segs.length
    speech_metrics := calculate_speech_metrics t
    fluency_metrics := calculate_fluency_metrics t
    linguistic_metrics := calculate_linguistic_metrics t
    confidence_metrics := calculate_confidence_metrics t
    engagement_analysis := analyze_engagement_patterns t
    pacing_analysis := calculate_pacing_analysis segs
    topic_transitions := (detect_topic_transitions segs).take 3 }

/-! ## Insight generator (`get_actionable_insights`, lines 293-355) -/

/-- An insight's classification.  The source dict also carries two
free-text fields (`insight`, a template with the offending value
formatted into it, and `suggestion`, a fixed string); they carry no
logic and no claim mentions them, so they are not modelled. -/
structure Insight where
  category : List Char
  severity : List Char
deriving DecidableEq

/-- Models `metrics["speech_metrics"].get("words_per_minute", 0)`: the empty
speech dict yields the default 0. -/
def wpmOf (m : MetricsReport) : ℚ :=
  (m.speech_metrics.map SpeechMetrics.words_per_minute).getD 0

/-- The test `pacing_consistency < 0.7` of the last insight rule, on a
present (non-empty) pacing dict.  In the source
`pacing_consistency = 1 - stdev(rates)/mean(rates)` if the mean is
positive, else `0`.  For a positive mean,
`1 - sqrt(v)/m < 0.7  ↔  sqrt(v) > 0.3·m  ↔  v > 0.09·m²`
(both sides of the middle inequality are non-negative), so the test is
exactly the variance comparison below; for a non-positive mean the
consistency is `0 < 0.7` and the test is true. -/
def consistencyBelow (p : PacingAnalysis) : Bool :=
  if 0 < p.average_rate then decide (9/100 * p.average_rate ^ 2 < p.rate_var)
  else true

/-- The rule table of `get_actionable_insights` applied to a finished
report; rules append in source order. -/
def insightRules (m : MetricsReport) : List Insight :=
  let wpm := wpmOf m
  let rateIns : List Insight :=
    if wpm < 120 then [⟨("Pacing").data, ("medium").data⟩]
    else if 200 < wpm then [⟨("Pacing").data, ("high").data⟩]
    else []
  let fluIns : List Insight :=
    if m.fluency_metrics.fluency_score < 85/100 then
      [⟨("Fluency").data, ("medium").data⟩]
    else []
  let engIns : List Insight :=
    if m.engagement_analysis.engagement_score < 2/100 then
      [⟨("Engagement").data, ("high").data⟩]
    else []
  let confIns : List Insight :=
    if m.confidence_metrics.average_confidence < 8/10 then
      [⟨("Audio Quality").data, ("medium").data⟩]
    else []
  let pacIns : List Insight :=
    match m.pacing_analysis with
    | none => []
    | some p => if consistencyBelow p then [⟨("Pacing").data, ("low").data⟩] else []
  rateIns ++ fluIns ++ engIns ++ confIns ++ pacIns

/-- Embeds `get_actionable_insights`: regenerates the report and applies the
rule table.  (`metrics["pacing_analysis"].get("pacing_consistency", 1)`
on an empty pacing dict yields the default 1, which is not `< 0.7`, so
`none` contributes no insight — see `insightRules`.) -/
def get_actionable_insights (t : List Word) (segs : List Segment) : List Insight :=
  insightRules (generate_comprehensive_report t segs)

/-! ## Supporting lemmas on the segmentation loop -/

theorem segLoop_flatten (ml pt : ℚ) :
    ∀ (ws : List Word) (c0 : Word) (racc : List Word),
      (segLoop ml pt c0 racc ws).flatten = (c0 :: racc.reverse) ++ ws := by
  intro ws
  induction ws with
  | nil => intro c0 racc; simp [segLoop]
  | cons w ws ih =>
    intro c0 racc
    by_cases h : ml ≤ w.«end» - c0.start ∨ pt ≤ w.start - (racc.headD c0).«end»
    · simp only [segLoop, if_pos h, List.flatten_cons, ih]
      simp
    · simp only [segLoop, if_neg h, ih]
      simp

theorem segmentGroups_flatten (t : List Word) (ml pt : ℚ) :
    (segmentGroups t ml pt).flatten = sortByStart t := by
  unfold segmentGroups
  cases h : sortByStart t with
  | nil => simp
  | cons w ws => simp [segLoop_flatten]

theorem segLoop_ne_nil (ml pt : ℚ) :
    ∀ (ws : List Word) (c0 : Word) (racc : List Word),
      ∀ g ∈ segLoop ml pt c0 racc ws, g ≠ [] := by
  intro ws
  induction ws with
  | nil =>
    intro c0 racc g hg
    simp only [segLoop, List.mem_singleton] at hg
    subst hg; simp
  | cons w ws ih =>
    intro c0 racc g hg
    by_cases h : ml ≤ w.«end» - c0.start ∨ pt ≤ w.start - (racc.headD c0).«end»
    · simp only [segLoop, if_pos h, List.mem_cons] at hg
      rcases hg with rfl | hg
      · simp
      · exact ih w [] g hg
    · simp only [segLoop, if_neg h] at hg
      exact ih c0 (w :: racc) g hg

theorem segmentGroups_ne_nil (t : List Word) (ml pt : ℚ) :
    ∀ g ∈ segmentGroups t ml pt, g ≠ [] := by
  unfold segmentGroups
  cases h : sortByStart t with
  | nil => simp
  | cons w ws => exact segLoop_ne_nil ml pt ws w []

/-- Words appended to an accumulator (everything after the group's
first word) were appended when their running duration was still below
`max_len`; a word reaching it is diverted to a fresh accumulator. -/
theorem segLoop_duration_invariant (ml pt : ℚ) :
    ∀ (ws : List Word) (c0 : Word) (racc : List Word),
      (∀ x ∈ racc, x.«end» - c0.start < ml) →
      ∀ g ∈ segLoop ml pt c0 racc ws, ∀ c rest, g = c :: rest →
        ∀ x ∈ rest, x.«end» - c.start < ml := by
  intro ws
  induction ws with
  | nil =>
    intro c0 racc hacc g hg c rest hEq x hx
    simp only [segLoop, List.mem_singleton] at hg
    subst hg
    injection hEq with h1 h2
    subst h1; subst h2
    exact hacc x (List.mem_reverse.mp hx)
  | cons w ws ih =>
    intro c0 racc hacc g hg c rest hEq x hx
    by_cases h : ml ≤ w.«end» - c0.start ∨ pt ≤ w.start - (racc.headD c0).«end»
    · simp only [segLoop, if_pos h, List.mem_cons] at hg
      rcases hg with rfl | hg
      · injection hEq with h1 h2
        subst h1; subst h2
        exact hacc x (List.mem_reverse.mp hx)
      · exact ih w [] (by simp) g hg c rest hEq x hx
    · simp only [segLoop, if_neg h] at hg
      push_neg at h
      refine ih c0 (w :: racc) ?_ g hg c rest hEq x hx
      intro y hy
      rcases List.mem_cons.mp hy with rfl | hy
      · exact h.1
      · exact hacc y hy

theorem getLast?_eq_some_getLastD (l : List Word) (h : l ≠ []) (d : Word) :
    l.getLast? = some (l.getLastD d) := by
  induction l generalizing d with
  | nil => simp at h
  | cons a t ih =>
    cases t with
    | nil => rfl
    | cons b u =>
      rw [List.getLastD_cons, List.getLast?_cons_cons]
      exact ih (by simp) a

theorem getLastD_of_ne_nil (l : List Word) (h : l ≠ []) (d d' : Word) :
    l.getLastD d = l.getLastD d' := by
  have h1 := getLast?_eq_some_getLastD l h d
  rw [getLast?_eq_some_getLastD l h d'] at h1
  exact (Option.some.injEq _ _ ▸ h1).symm

theorem getLast?_cons_reverse (c0 : Word) (racc : List Word) :
    (c0 :: racc.reverse).getLast? = some (racc.headD c0) := by
  cases racc with
  | nil => rfl
  | cons a l =>
    rw [List.headD_cons, List.reverse_cons, ← List.cons_append, List.getLast?_concat]

/-- Within a group, every gap between consecutive words stays below
`pause_thresh`: a word at or past the pause threshold starts a new
group. -/
theorem segLoop_gap_invariant (ml pt : ℚ) :
    ∀ (ws : List Word) (c0 : Word) (racc : List Word),
      List.Chain' (fun a b => b.start - a.«end» < pt) (c0 :: racc.reverse) →
      ∀ g ∈ segLoop ml pt c0 racc ws,
        List.Chain' (fun a b => b.start - a.«end» < pt) g := by
  intro ws
  induction ws with
  | nil =>
    intro c0 racc hacc g hg
    simp only [segLoop, List.mem_singleton] at hg
    subst hg; exact hacc
  | cons w ws ih =>
    intro c0 racc hacc g hg
    by_cases h : ml ≤ w.«end» - c0.start ∨ pt ≤ w.start - (racc.headD c0).«end»
    · simp only [segLoop, if_pos h, List.mem_cons] at hg
      rcases hg with rfl | hg
      · exact hacc
      · exact ih w [] (List.chain'_singleton w) g hg
    · simp only [segLoop, if_neg h] at hg
      push_neg at h
      refine ih c0 (w :: racc) ?_ g hg
      have : c0 :: (w :: racc).reverse = (c0 :: racc.reverse) ++ [w] := by simp
      rw [this, List.chain'_append]
      refine ⟨hacc, List.chain'_singleton w, ?_⟩
      intro x hx y hy
      rw [getLast?_cons_reverse] at hx
      simp only [List.head?_cons, Option.mem_some_iff] at hx hy
      subst hx; subst hy
      exact h.2

theorem head?_eq_some_headD (l : List Word) (h : l ≠ []) (d : Word) :
    l.head? = some (l.headD d) := by
  cases l with
  | nil => simp at h
  | cons a t => rfl

/-- A chain over a flattened list of non-empty groups restricts to a
chain inside every group and a chain between the border elements of
consecutive groups. -/
theorem flatten_boundary_chain {R : Word → Word → Prop} :
    ∀ (gs : List (List Word)), (∀ g ∈ gs, g ≠ []) → List.Chain' R gs.flatten →
      List.Chain' (fun g h => R (g.getLastD defaultWord) (h.headD defaultWord)) gs ∧
      ∀ g ∈ gs, List.Chain' R g := by
  intro gs
  induction gs with
  | nil => simp
  | cons g gs ih =>
    intro hne hch
    rw [List.flatten_cons, List.chain'_append] at hch
    obtain ⟨hg, hrest, hbd⟩ := hch
    obtain ⟨ihch, ihall⟩ := ih (fun x hx => hne x (List.mem_cons_of_mem _ hx)) hrest
    refine ⟨?_, ?_⟩
    · cases gs with
      | nil => exact List.chain'_singleton g
      | cons h hs =>
        rw [List.chain'_cons]
        refine ⟨?_, ihch⟩
        have hgne : g ≠ [] := hne g (by simp)
        have hhne : h ≠ [] := hne h (by simp [List.mem_cons])
        apply hbd
        · rw [getLast?_eq_some_getLastD g hgne defaultWord]
          exact Option.mem_some_iff.mpr rfl
        · rw [List.flatten_cons, List.head?_append,
            head?_eq_some_headD h hhne defaultWord]
          exact Option.mem_some_iff.mpr rfl
    · intro x hx
      rcases List.mem_cons.mp hx with rfl | hx
      · exact hg
      · exact ihall x hx

/-- For a non-empty run of words chained by `end ≤ next start`, each of
which is well-formed (`start ≤ end`), the run's first start is at most
its last end. -/
theorem chain_head_start_le_last_end :
    ∀ (g : List Word), g ≠ [] →
      List.Chain' (fun a b => a.«end» ≤ b.start) g →
      (∀ w ∈ g, w.start ≤ w.«end») →
      (g.headD defaultWord).start ≤ (g.getLastD defaultWord).«end» := by
  intro g
  induction g with
  | nil => simp
  | cons a t ih =>
    intro _ hch hwf
    cases t with
    | nil => simpa using hwf a (by simp)
    | cons b u =>
      rw [List.chain'_cons] at hch
      have h1 : a.start ≤ a.«end» := hwf a (by simp)
      have h2 : a.«end» ≤ b.start := hch.1
      have h3 := ih (by simp) hch.2 (fun w hw => hwf w (List.mem_cons_of_mem _ hw))
      rw [List.headD_cons] at h3
      rw [List.headD_cons, List.getLastD_cons,
        getLastD_of_ne_nil (b :: u) (by simp) a defaultWord]
      exact le_trans h1 (le_trans h2 h3)

theorem make_segment_start (g : List Word) :
    (make_segment g).start = (g.headD defaultWord).start := rfl

theorem make_segment_end (g : List Word) :
    (make_segment g).«end» = (g.getLastD defaultWord).«end» := rfl

/-! ## Claim C1 -/

def c1wA : Word := ⟨0, 70, ("a").data, some 1⟩
def c1wB : Word := ⟨1, 65, ("b").data, some 1⟩

/-- C1, counterexample.  The claim asserts that for *every* input word
list the returned segments are time-ordered and mutually
non-overlapping.  For the two well-formed words (0,70) and (1,65) —
sorted by start already — the second word trips the
`duration ≥ max_len` check, so each word becomes its own segment, and
the second segment `[1,65]` lies strictly inside the first `[0,70]`:
the last segment starts before the first one ends. -/
theorem C1_counterexample :
    segment [c1wA, c1wB] 60 2 =
      [⟨0, 70, ("a").data, 1/70, 1, 0, 1⟩, ⟨1, 65, ("b").data, 1/64, 1, 0, 1⟩] ∧
    ((segment [c1wA, c1wB] 60 2).getLastD ⟨0, 0, [], 0, 0, 0, 0⟩).start <
      ((segment [c1wA, c1wB] 60 2).headD ⟨0, 0, [], 0, 0, 0, 0⟩).«end» := by
  have h : segment [c1wA, c1wB] 60 2 =
      [⟨0, 70, ("a").data, 1/70, 1, 0, 1⟩, ⟨1, 65, ("b").data, 1/64, 1, 0, 1⟩] := by
    norm_num +decide [segment, segmentGroups, segLoop, sortByStart, List.insertionSort,
      List.orderedInsert, make_segment, c1wA, c1wB, totalSilence, compute_lexical_diversity,
      wordTokens, lowerChars, runsBy, runsByAux, isWordChar, joinSpace, stripChars,
      isSpaceChar, List.intercalate, List.intersperse, List.dedup, defaultWord]
  refine ⟨h, ?_⟩
  rw [h]
  norm_num

/-- C1, amended: the concatenation of the word groups underlying the
returned segments is exactly the input sorted (stably) by start — no
word dropped or duplicated, each segment a contiguous sub-run — for
*every* input; and *provided* every word is well-formed
(`start ≤ end`) and the sorted words are mutually non-overlapping
(each word starts no earlier than the previous one ends), the returned
segments are time-ordered and mutually non-overlapping
(each segment ends no later than the next begins, and each segment's
start is at most its end). -/
theorem C1_segments_partition_order (t : List Word) (ml pt : ℚ)
    (hwf : t.all (fun w => decide (w.start ≤ w.«end»)) = true)
    (hsep : List.Chain' (fun a b => a.«end» ≤ b.start) (sortByStart t)) :
    (segmentGroups t ml pt).flatten = sortByStart t ∧
    (sortByStart t).Perm t ∧
    List.Chain' (fun s s' => s.«end» ≤ s'.start) (segment t ml pt) ∧
    (segment t ml pt).all (fun s => decide (s.start ≤ s.«end»)) = true := by
  have hflat := segmentGroups_flatten t ml pt
  have hperm : (sortByStart t).Perm t := List.perm_insertionSort _ t
  have hne := segmentGroups_ne_nil t ml pt
  have hb := flatten_boundary_chain (segmentGroups t ml pt) hne (hflat ▸ hsep)
  have hwf' : ∀ g ∈ segmentGroups t ml pt, ∀ w ∈ g, w.start ≤ w.«end» := by
    intro g hg w hw
    have hmem : w ∈ (segmentGroups t ml pt).flatten := List.mem_flatten.mpr ⟨g, hg, hw⟩
    rw [hflat] at hmem
    have hmem' : w ∈ t := hperm.mem_iff.mp hmem
    exact of_decide_eq_true (List.all_eq_true.mp hwf w hmem')
  refine ⟨hflat, hperm, ?_, ?_⟩
  · rw [segment, List.chain'_map]
    refine List.Chain'.imp ?_ hb.1
    intro g h hr
    rw [make_segment_end, make_segment_start]
    exact hr
  · rw [List.all_eq_true]
    intro s hs
    rw [segment, List.mem_map] at hs
    obtain ⟨g, hg, rfl⟩ := hs
    rw [decide_eq_true_eq, make_segment_start, make_segment_end]
    exact chain_head_start_le_last_end g (hne g hg) (hb.2 g hg) (hwf' g hg)

def c1vA : Word := ⟨0, 1, ("hello").data, some (9/10)⟩
def c1vB : Word := ⟨12/10, 2, ("world").data, some (8/10)⟩

/-- C1, witness: the amended theorem applied to a concrete well-formed,
non-overlapping two-word transcript. -/
theorem C1_witness :
    ([c1vA, c1vB].all (fun w => decide (w.start ≤ w.«end»)) = true) ∧
    List.Chain' (fun a b => a.«end» ≤ b.start) (sortByStart [c1vA, c1vB]) ∧
    ((segmentGroups [c1vA, c1vB] 60 2).flatten = sortByStart [c1vA, c1vB] ∧
     (sortByStart [c1vA, c1vB]).Perm [c1vA, c1vB] ∧
     List.Chain' (fun s s' => s.«end» ≤ s'.start) (segment [c1vA, c1vB] 60 2) ∧
     (segment [c1vA, c1vB] 60 2).all (fun s => decide (s.start ≤ s.«end»)) = true) := by
  have hwf : [c1vA, c1vB].all (fun w => decide (w.start ≤ w.«end»)) = true := by
    norm_num [c1vA, c1vB]
  have hsep : List.Chain' (fun a b => a.«end» ≤ b.start) (sortByStart [c1vA, c1vB]) := by
    have hs : sortByStart [c1vA, c1vB] = [c1vA, c1vB] := by
      norm_num [sortByStart, List.insertionSort, List.orderedInsert, c1vA, c1vB]
    rw [hs]
    norm_num [List.chain'_cons, c1vA, c1vB]
  exact ⟨hwf, hsep, C1_segments_partition_order [c1vA, c1vB] 60 2 hwf hsep⟩

/-! ## Claim C2 -/

theorem countWB_nil (pat : List Char) : countWB pat [] = 0 := by
  by_cases h : pat.isEmpty <;> simp [countWB, h, countWBFuel]

/-- C2: the empty transcript yields an empty segment list, and feeding
the empty transcript together with its (empty) segment list to the
analyzer yields a report whose numeric fields are all 0, whose list
fields are all empty, and whose conditionally-empty sub-dicts
(`speech`, `linguistic`, `pacing`) are the empty dict (`none`); both
computations are total, so no exception is possible. -/
theorem C2_empty_report :
    segment [] 60 2 = [] ∧
    generate_comprehensive_report [] (segment [] 60 2) =
      { total_duration_minutes := 0, total_words := 0, segment_count := 0,
        speech_metrics := none,
        fluency_metrics := ⟨0, 0, 0, 0, 0⟩,
        linguistic_metrics := none,
        confidence_metrics := ⟨0, 0, none⟩,
        engagement_analysis := ⟨0, 0, 0, 0⟩,
        pacing_analysis := none,
        topic_transitions := [] } := by
  have hseg : segment ([] : List Word) 60 2 = [] := rfl
  refine ⟨hseg, ?_⟩
  rw [hseg]
  norm_num [generate_comprehensive_report, total_duration, getWords, full_text,
    calculate_speech_metrics, calculate_fluency_metrics, calculate_linguistic_metrics,
    calculate_confidence_metrics, analyze_engagement_patterns, calculate_pacing_analysis,
    detect_topic_transitions, joinSpace, List.intercalate, lowerChars, countWB_nil,
    fillerWords, repetitionCount, repScanFuel]

/-! ## Claim C5 -/

def c5w1 : Word := ⟨0, 1, ("hello").data, some (9/10)⟩
def c5w2 : Word := ⟨12/10, 2, ("world").data, some (8/10)⟩

/-- C5: the two-word example transcript with default thresholds yields
exactly one segment with text "hello world", speech_rate 1,
lexical_diversity 1, silence_ratio 1/10 and asr_confidence 17/20. -/
theorem C5_example_segment :
    segment [c5w1, c5w2] 60 2 = [⟨0, 2, ("hello world").data, 1, 1, 1/10, 17/20⟩] := by
  norm_num +decide [segment, segmentGroups, segLoop, sortByStart, List.insertionSort,
    List.orderedInsert, make_segment, c5w1, c5w2, totalSilence, compute_lexical_diversity,
    wordTokens, lowerChars, runsBy, runsByAux, isWordChar, joinSpace, stripChars,
    isSpaceChar, List.intercalate, List.intersperse, List.dedup, defaultWord]

/-! ## Claim C10 -/

/-- C10: on the empty transcript (and its empty segment list) the
insight generator fires exactly the four rules whose metrics default to
0 — slow pacing (medium), fluency (medium), engagement (high) and audio
quality (medium) — and no others. -/
theorem C10_empty_insights :
    get_actionable_insights [] (segment [] 60 2) =
      [⟨("Pacing").data, ("medium").data⟩, ⟨("Fluency").data, ("medium").data⟩,
       ⟨("Engagement").data, ("high").data⟩, ⟨("Audio Quality").data, ("medium").data⟩] := by
  have hseg : segment ([] : List Word) 60 2 = [] := rfl
  rw [get_actionable_insights, hseg]
  norm_num [insightRules, wpmOf, consistencyBelow, generate_comprehensive_report,
    total_duration, getWords, full_text, calculate_speech_metrics,
    calculate_fluency_metrics, calculate_linguistic_metrics,
    calculate_confidence_metrics, analyze_engagement_patterns,
    calculate_pacing_analysis, detect_topic_transitions, joinSpace,
    List.intercalate, lowerChars, countWB_nil, fillerWords, repetitionCount,
    repScanFuel]

/-! ## Claim C3 -/

/-- C3: within any emitted group `c :: rest`, every word of `rest`
(i.e. every word that was *appended* to the segment rather than
starting it) has running duration `word.end - c.start` strictly below
`max_len` — a word reaching the threshold is never included in the
segment it closes, it starts the next group instead; consequently a
group whose span (`last.end - c.start`) exceeds `max_len` must be a
singleton, whose span is that single word's own duration. -/
theorem C3_boundary_word (t : List Word) (ml pt : ℚ) (g : List Word) (c : Word)
    (rest : List Word) (hg : g ∈ segmentGroups t ml pt) (hc : g = c :: rest) :
    rest.all (fun x => decide (x.«end» - c.start < ml)) = true ∧
    (decide (ml < (g.getLastD c).«end» - c.start) && !rest.isEmpty) = false := by
  have hinv : ∀ x ∈ rest, x.«end» - c.start < ml := by
    unfold segmentGroups at hg
    cases h : sortByStart t with
    | nil => rw [h] at hg; simp at hg
    | cons w ws =>
      rw [h] at hg
      exact segLoop_duration_invariant ml pt ws w [] (by simp) g hg c rest hc
  constructor
  · rw [List.all_eq_true]
    intro x hx
    exact decide_eq_true (hinv x hx)
  · cases rest with
    | nil => simp
    | cons r rs =>
      have hlast : (g.getLastD c) ∈ (r :: rs) := by
        rw [hc, List.getLastD_cons]
        exact List.mem_of_mem_getLast? rfl
      have h2 : ¬ (ml < (g.getLastD c).«end» - c.start) :=
        not_lt.mpr (le_of_lt (hinv _ hlast))
      rw [decide_eq_false h2, Bool.false_and]

def c3w1 : Word := ⟨0, 1, ("hello").data, some (9/10)⟩
def c3w2 : Word := ⟨12/10, 2, ("world").data, some (8/10)⟩

/-- C3, witness: both conclusions at the concrete two-word group
produced by segmenting the example transcript. -/
theorem C3_witness :
    ([c3w1, c3w2] ∈ segmentGroups [c3w1, c3w2] 60 2) ∧
    ([c3w2].all (fun x => decide (x.«end» - c3w1.start < 60)) = true ∧
     (decide ((60 : ℚ) < ([c3w1, c3w2].getLastD c3w1).«end» - c3w1.start) &&
       !([c3w2].isEmpty)) = false) := by
  have hg : [c3w1, c3w2] ∈ segmentGroups [c3w1, c3w2] 60 2 := by
    have h : segmentGroups [c3w1, c3w2] 60 2 = [[c3w1, c3w2]] := by
      norm_num [segmentGroups, segLoop, sortByStart, List.insertionSort,
        List.orderedInsert, c3w1, c3w2]
    rw [h]
    exact List.mem_singleton.mpr rfl
  exact ⟨hg, C3_boundary_word [c3w1, c3w2] 60 2 [c3w1, c3w2] c3w1 [c3w2] hg rfl⟩

/-! ## Claim C4 -/

/-- C4: for any two well-formed words whose second starts 3.0s after
the first ends, `segment` with the default thresholds returns exactly
two segments, one per word; and in general, within any emitted group
every gap between consecutive words is strictly below `pause_thresh`
(a gap reaching the threshold closes the segment at that word). -/
theorem C4_pause_split (w1 w2 : Word) (t : List Word) (ml pt : ℚ) (g : List Word)
    (h1 : w1.start ≤ w1.«end») (h2 : w2.start = w1.«end» + 3)
    (hg : g ∈ segmentGroups t ml pt) :
    segment [w1, w2] 60 2 = [make_segment [w1], make_segment [w2]] ∧
    List.Chain' (fun a b => b.start - a.«end» < pt) g := by
  constructor
  · have hle : w1.start ≤ w2.start := by rw [h2]; linarith
    have hsort : sortByStart [w1, w2] = [w1, w2] := by
      simp [sortByStart, List.insertionSort, List.orderedInsert, hle]
    have hgap : (2 : ℚ) ≤ w2.start - w1.«end» := by rw [h2]; linarith
    rw [segment]
    unfold segmentGroups
    rw [hsort]
    simp only [segLoop, List.headD_nil]
    rw [if_pos (Or.inr hgap)]
    simp [segLoop]
  · unfold segmentGroups at hg
    cases h : sortByStart t with
    | nil => rw [h] at hg; simp at hg
    | cons w ws =>
      rw [h] at hg
      exact segLoop_gap_invariant ml pt ws w [] (List.chain'_singleton w) g hg

def c4w1 : Word := ⟨0, 1, ("x").data, none⟩
def c4w2 : Word := ⟨4, 5, ("y").data, none⟩

/-- C4, witness: the theorem applied to the concrete pair (0,1) and
(4,5) (gap 3.0) and to the singleton group of a one-word transcript. -/
theorem C4_witness :
    c4w1.start ≤ c4w1.«end» ∧ c4w2.start = c4w1.«end» + 3 ∧
    ([c4w1] ∈ segmentGroups [c4w1] 60 2) ∧
    (segment [c4w1, c4w2] 60 2 = [make_segment [c4w1], make_segment [c4w2]] ∧
     List.Chain' (fun a b => b.start - a.«end» < 2) [c4w1]) := by
  have h1 : c4w1.start ≤ c4w1.«end» := by norm_num [c4w1]
  have h2 : c4w2.start = c4w1.«end» + 3 := by norm_num [c4w1, c4w2]
  have hg : [c4w1] ∈ segmentGroups [c4w1] 60 2 := by
    have h : segmentGroups [c4w1] 60 2 = [[c4w1]] := by
      norm_num [segmentGroups, segLoop, sortByStart, List.insertionSort,
        List.orderedInsert]
    rw [h]
    exact List.mem_singleton.mpr rfl
  exact ⟨h1, h2, hg, C4_pause_split c4w1 c4w2 [c4w1] 60 2 [c4w1] h1 h2 hg⟩

/-! ## Claim C6: tokenization lemmas -/

theorem runsByAux_takeAll (p : Char → Bool) :
    ∀ (w : List Char), (∀ c ∈ w, p c = true) →
      ∀ (acc s : List Char), runsByAux p acc (w ++ s) = runsByAux p (w.reverse ++ acc) s := by
  intro w
  induction w with
  | nil => intro _ acc s; simp
  | cons c w ih =>
    intro hw acc s
    have hc : p c = true := hw c (by simp)
    rw [List.cons_append]
    show runsByAux p acc (c :: (w ++ s)) = _
    rw [runsByAux, if_pos hc,
      ih (fun x hx => hw x (List.mem_cons_of_mem _ hx)) (c :: acc) s]
    congr 1
    simp

theorem runsByAux_word_end (p : Char → Bool) (w : List Char)
    (hw : ∀ c ∈ w, p c = true) (hne : w ≠ []) : runsByAux p [] w = [w] := by
  rw [← List.append_nil w, runsByAux_takeAll p w hw [] [], runsByAux]
  simp [List.isEmpty_iff, hne]

theorem runsByAux_word_space (p : Char → Bool) (w : List Char)
    (hw : ∀ c ∈ w, p c = true) (hne : w ≠ []) (hsp : p ' ' = false)
    (rest : List Char) :
    runsByAux p [] (w ++ ' ' :: rest) = w :: runsByAux p [] rest := by
  rw [runsByAux_takeAll p w hw [] (' ' :: rest), runsByAux, hsp]
  simp [List.isEmpty_iff, hne]

theorem joinSpace_singleton (x : List Char) : joinSpace [x] = x := by
  simp [joinSpace, List.intercalate, List.intersperse]

theorem joinSpace_cons_cons (x y : List Char) (t : List (List Char)) :
    joinSpace (x :: y :: t) = x ++ ' ' :: joinSpace (y :: t) := by
  simp [joinSpace, List.intercalate, List.intersperse]

theorem wordTokens_join_replicate (lw : List Char)
    (h : ∀ c ∈ lw, isWordChar c = true) (hne : lw ≠ []) :
    ∀ n, 1 ≤ n →
      runsBy isWordChar (joinSpace (List.replicate n lw)) = List.replicate n lw := by
  intro n
  induction n with
  | zero => omega
  | succ n ih =>
    intro _
    cases n with
    | zero =>
      rw [List.replicate_one, joinSpace_singleton, runsBy]
      rw [runsByAux_word_end isWordChar lw h hne, ← List.replicate_one]
    | succ m =>
      rw [show List.replicate (m + 2) lw = lw :: lw :: List.replicate m lw from rfl,
        joinSpace_cons_cons, runsBy,
        runsByAux_word_space isWordChar lw h hne (by decide)]
      rw [show (lw :: List.replicate m lw) = List.replicate (m + 1) lw from rfl]
      rw [show runsByAux isWordChar [] (joinSpace (List.replicate (m + 1) lw)) =
        runsBy isWordChar (joinSpace (List.replicate (m + 1) lw)) from rfl]
      rw [ih (by omega)]

theorem lowerChars_joinSpace (ts : List (List Char)) :
    lowerChars (joinSpace ts) = joinSpace (ts.map lowerChars) := by
  induction ts with
  | nil => rfl
  | cons x t ih =>
    cases t with
    | nil => rw [joinSpace_singleton, List.map_cons, List.map_nil, joinSpace_singleton]
    | cons y u =>
      rw [joinSpace_cons_cons, List.map_cons, List.map_cons, joinSpace_cons_cons,
        ← List.map_cons lowerChars y u, ← ih, lowerChars, List.map_append]
      rfl

theorem dedup_replicate_pos (lw : List Char) :
    ∀ n, 1 ≤ n → (List.replicate n lw).dedup = [lw] := by
  intro n
  induction n with
  | zero => omega
  | succ n ih =>
    intro _
    cases n with
    | zero => simp
    | succ m =>
      rw [show List.replicate (m + 2) lw = lw :: List.replicate (m + 1) lw from rfl,
        List.dedup_cons_of_mem (List.mem_replicate.mpr ⟨by omega, rfl⟩)]
      exact ih (by omega)

/-- C6: a segment made of `n ≥ 1` words all carrying the same non-empty
token, each character of which lowercases to a word character (letters,
digits, underscore), has lexical diversity exactly `1 / n`: the joined
text tokenizes to `n` copies of the lowercased token, of which exactly
one is distinct. -/
theorem C6_repeated_word_diversity (n : ℕ) (w : List Char) (ws : List Word)
    (hn : 1 ≤ n) (hw : w.all (fun c => isWordChar c.toLower) = true)
    (hne : w.isEmpty = false) (hlen : ws.length = n)
    (htext : ws.all (fun x => decide (x.text = w)) = true) :
    (make_segment ws).lexical_diversity = 1 / n := by
  have htext' : ∀ x ∈ ws, x.text = w := fun x hx =>
    of_decide_eq_true (List.all_eq_true.mp htext x hx)
  have hmap : ws.map Word.text = List.replicate n w := by
    have h1 : ∀ b ∈ ws.map Word.text, b = w := by
      intro b hb
      obtain ⟨x, hx, rfl⟩ := List.mem_map.mp hb
      exact htext' x hx
    have h2 := List.eq_replicate_of_mem h1
    rwa [List.length_map, hlen] at h2
  have hld : (make_segment ws).lexical_diversity =
      compute_lexical_diversity (joinSpace (List.replicate n w)) := by
    rw [← hmap]; rfl
  have hwne : w ≠ [] := by
    intro hcon
    rw [hcon] at hne
    simp at hne
  have hlwne : lowerChars w ≠ [] := by
    intro hcon
    have := congrArg List.length hcon
    rw [lowerChars, List.length_map] at this
    exact hwne (List.length_eq_zero.mp this)
  have hlwall : ∀ c ∈ lowerChars w, isWordChar c = true := by
    intro c hc
    obtain ⟨c0, hc0, rfl⟩ := List.mem_map.mp hc
    exact List.all_eq_true.mp hw c0 hc0
  have htok : wordTokens (joinSpace (List.replicate n w)) =
      List.replicate n (lowerChars w) := by
    rw [wordTokens, lowerChars_joinSpace, List.map_replicate]
    exact wordTokens_join_replicate (lowerChars w) hlwall hlwne n hn
  rw [hld, compute_lexical_diversity]
  simp only [htok]
  rw [dedup_replicate_pos (lowerChars w) n hn]
  have hnn : ¬ (List.replicate n (lowerChars w)).isEmpty = true := by
    cases n with
    | zero => omega
    | succ m => simp [List.replicate]
  simp [hnn, List.length_replicate]

def c6word : List Char := ("la").data

def c6ws : List Word := [⟨0, 1, c6word, none⟩, ⟨2, 3, c6word, none⟩]

/-- C6, witness: two repetitions of the token "la" give lexical
diversity 1/2. -/
theorem C6_witness :
    1 ≤ 2 ∧ c6word.all (fun c => isWordChar c.toLower) = true ∧
    c6word.isEmpty = false ∧ c6ws.length = 2 ∧
    c6ws.all (fun x => decide (x.text = c6word)) = true ∧
    (make_segment c6ws).lexical_diversity = 1 / 2 := by
  refine ⟨by omega, by decide, by decide, by decide, by decide, ?_⟩
  have h := C6_repeated_word_diversity 2 c6word c6ws (by omega) (by decide)
    (by decide) (by decide) (by decide)
  simpa using h

/-! ## Claim C7 -/

/-- C7: on any report with `words_per_minute` 100 the rule table emits
a Pacing/medium insight; with 250 it emits a Pacing/high insight; with
160 the speech-rate rule does not fire, and the only Pacing insight
that can remain is the low-severity pacing-consistency one — no
medium- or high-severity Pacing insight is produced. -/
theorem C7_pacing_insights (m1 m2 m3 : MetricsReport)
    (h1 : wpmOf m1 = 100) (h2 : wpmOf m2 = 250) (h3 : wpmOf m3 = 160) :
    (⟨("Pacing").data, ("medium").data⟩ : Insight) ∈ insightRules m1 ∧
    (⟨("Pacing").data, ("high").data⟩ : Insight) ∈ insightRules m2 ∧
    (insightRules m3).filter
      (fun i => i.category == ("Pacing").data && !(i.severity == ("low").data)) = [] := by
  refine ⟨?_, ?_, ?_⟩
  · simp only [insightRules, h1]
    rw [if_pos (by norm_num : (100 : ℚ) < 120)]
    simp
  · simp only [insightRules, h2]
    rw [if_neg (by norm_num : ¬ (250 : ℚ) < 120), if_pos (by norm_num : (200 : ℚ) < 250)]
    simp
  · simp only [insightRules, h3]
    rw [if_neg (by norm_num : ¬ (160 : ℚ) < 120), if_neg (by norm_num : ¬ (200 : ℚ) < 160)]
    cases m3.pacing_analysis with
    | none => split_ifs <;> decide
    | some p =>
      by_cases hp : consistencyBelow p = true <;>
        split_ifs <;> simp +decide [hp, List.filter]

/-- A report with a given words-per-minute value and otherwise
unremarkable metrics, used to instantiate C7. -/
def c7report (wpm : ℚ) : MetricsReport :=
  { total_duration_minutes := 0, total_words := 0, segment_count := 0,
    speech_metrics := some ⟨wpm, 0, 0, 0, 0, 0, 0, 0⟩,
    fluency_metrics := ⟨0, 0, 0, 0, 1⟩,
    linguistic_metrics := none,
    confidence_metrics := ⟨1, 0, none⟩,
    engagement_analysis := ⟨0, 0, 0, 1⟩,
    pacing_analysis := none,
    topic_transitions := [] }

/-- C7, witness: the rule table evaluated at reports with
words-per-minute 100, 250 and 160. -/
theorem C7_witness :
    wpmOf (c7report 100) = 100 ∧ wpmOf (c7report 250) = 250 ∧
    wpmOf (c7report 160) = 160 ∧
    ((⟨("Pacing").data, ("medium").data⟩ : Insight) ∈ insightRules (c7report 100) ∧
     (⟨("Pacing").data, ("high").data⟩ : Insight) ∈ insightRules (c7report 250) ∧
     (insightRules (c7report 160)).filter
       (fun i => i.category == ("Pacing").data && !(i.severity == ("low").data)) = []) :=
  ⟨rfl, rfl, rfl, C7_pacing_insights (c7report 100) (c7report 250) (c7report 160) rfl rfl rfl⟩

/-! ## Claim C8 -/

def c8sA : Segment := ⟨0, 1, ("alpha beta").data, 0, 0, 0, 0⟩
def c8sB : Segment := ⟨3/2, 2, ("alpha beta").data, 0, 0, 0, 0⟩

/-- C8, counterexample.  The claim asserts that *every* adjacent
segment pair produces a candidate, but the source only keeps a pair
when `time_gap > 3.0` or `similarity < 0.3`: two adjacent segments with
identical text (similarity 1) and a gap of 0.5s produce no candidate at
all, so two segments yield an empty transition list instead of one
candidate. -/
theorem C8_counterexample :
    detect_topic_transitions [c8sA, c8sB] = [] ∧ [c8sA, c8sB].length = 2 := by
  refine ⟨?_, rfl⟩
  norm_num +decide [detect_topic_transitions, transCandidate, c8sA, c8sB, splitWs,
    runsBy, runsByAux, isSpaceChar, lowerChars, List.dedup, List.insertionSort,
    List.zip, List.zipWith]

/-- C8, amended: with at least 2 segments, the returned transition list
consists (up to the descending ordering) exactly of the candidates of
those adjacent pairs passing the `time_gap > 3.0 ∨ similarity < 0.3`
filter — each candidate carrying similarity
`|word-set intersection| / min(|A|, |B|)` (0 when a set is empty) and
strength `max(time_gap/5, 1 − similarity)` per `transCandidate` — and
it is sorted descending by `transition_strength`.  The function is
deterministic: it is a pure function of its input. -/
theorem C8_transitions_sorted (ss : List Segment) (h : 2 ≤ ss.length) :
    (detect_topic_transitions ss).Perm ((ss.zip ss.tail).filterMap transCandidate) ∧
    List.Chain' (fun a b => b.transition_strength ≤ a.transition_strength)
      (detect_topic_transitions ss) := by
  haveI hT : IsTotal Transition
      (fun a b => b.transition_strength ≤ a.transition_strength) :=
    ⟨fun a b => le_total b.transition_strength a.transition_strength⟩
  haveI hR : IsTrans Transition
      (fun a b => b.transition_strength ≤ a.transition_strength) :=
    ⟨fun _ _ _ hab hbc => le_trans hbc hab⟩
  have hguard : ¬ (ss.length < 2) := not_lt.mpr h
  rw [detect_topic_transitions, if_neg hguard]
  exact ⟨List.perm_insertionSort _ _,
    (List.sorted_insertionSort _ _).chain'⟩

def c8tA : Segment := ⟨0, 1, ("alpha").data, 0, 0, 0, 0⟩
def c8tB : Segment := ⟨3/2, 2, ("gamma").data, 0, 0, 0, 0⟩

/-- C8, witness: the amended theorem at a concrete pair of lexically
disjoint segments. -/
theorem C8_witness :
    2 ≤ [c8tA, c8tB].length ∧
    ((detect_topic_transitions [c8tA, c8tB]).Perm
      (([c8tA, c8tB].zip [c8tA, c8tB].tail).filterMap transCandidate) ∧
     List.Chain' (fun a b => b.transition_strength ≤ a.transition_strength)
       (detect_topic_transitions [c8tA, c8tB])) :=
  ⟨by decide, C8_transitions_sorted [c8tA, c8tB] (by decide)⟩

/-! ## Claim C9 -/

/-- Seven one-word segments whose durations 1, 1/2, 1/4, 1/8, 1/16,
1/32, 1/1000 yield the local rates 1, 2, 4, 8, 16, 32, 1000. -/
def c9segs : List Segment :=
  [⟨0, 1, ("x").data, 0, 0, 0, 0⟩,
   ⟨1, 3/2, ("x").data, 0, 0, 0, 0⟩,
   ⟨2, 9/4, ("x").data, 0, 0, 0, 0⟩,
   ⟨3, 25/8, ("x").data, 0, 0, 0, 0⟩,
   ⟨4, 65/16, ("x").data, 0, 0, 0, 0⟩,
   ⟨5, 161/32, ("x").data, 0, 0, 0, 0⟩,
   ⟨6, 6001/1000, ("x").data, 0, 0, 0, 0⟩]

/-- C9: the claim (and the source's own comment
"Top 5 most significant changes") say the reported `pace_changes` are
the up-to-5 *most significant* changes, but the code slices the
chronological list (`pacing_changes[:5]`) without sorting by magnitude.
On `c9segs` the six flagged changes have magnitudes
1, 1, 1, 1, 1, 121/4; the report keeps the five of magnitude 1 and
drops the by far most significant one (121/4 = 30.25). -/
theorem C9_first_five_not_most_significant :
    (pacingChanges (segmentRates c9segs)).map PaceChange.change_magnitude =
      [1, 1, 1, 1, 1, 121/4] ∧
    ((calculate_pacing_analysis c9segs).map
      (fun p => p.pace_changes.map PaceChange.change_magnitude)).getD [] =
      [1, 1, 1, 1, 1] ∧
    ((calculate_pacing_analysis c9segs).map
      PacingAnalysis.significant_pace_changes).getD 0 = 6 := by
  have hsr : segmentRates c9segs =
      [⟨0, 1, 1⟩, ⟨1, 2, 1/2⟩, ⟨2, 4, 1/4⟩, ⟨3, 8, 1/8⟩,
       ⟨4, 16, 1/16⟩, ⟨5, 32, 1/32⟩, ⟨6, 1000, 1/1000⟩] := by
    norm_num +decide [segmentRates, c9segs, splitWs, runsBy, runsByAux, isSpaceChar,
      List.filterMap_cons]
  have hch : pacingChanges (segmentRates c9segs) =
      [⟨1, 1, 2, 1⟩, ⟨2, 1, 4, 2⟩, ⟨3, 1, 8, 4⟩, ⟨4, 1, 16, 8⟩,
       ⟨5, 1, 32, 16⟩, ⟨6, 121/4, 1000, 32⟩] := by
    rw [hsr]
    norm_num [pacingChanges, List.zip, List.zipWith, List.filterMap_cons]
  have hch' := hch
  rw [hsr] at hch'
  refine ⟨by rw [hch]; rfl, ?_, ?_⟩ <;>
  · rw [calculate_pacing_analysis]
    rw [if_neg (by decide : ¬ (c9segs.length < 3))]
    simp only [hsr, hch']
    norm_num

end Praxis
